import Mathlib

/-!
Verification development for the imco command-line image converter
(`src/main.rs`).  The error taxonomy, the I/O error classifier, the format
resolver, output-name derivation, input/output pairing, the per-file
conversion flow and batch pattern expansion are embedded as executable Lean
definitions.  Actual file reads, image decoding and encoding are performed by
the external `image` crate; they are modelled by an oracle so that the control
flow of `individual_process` and `process` can be stated and proved exactly.
-/

namespace Imco

/-- Decidable equality for `Except`, used to evaluate the embedded fallible
functions on concrete inputs. -/
instance {ε α : Type} [DecidableEq ε] [DecidableEq α] : DecidableEq (Except ε α) := fun a b =>
  match a, b with
  | Except.ok x, Except.ok y =>
    if h : x = y then Decidable.isTrue (congrArg Except.ok h)
    else Decidable.isFalse (fun hc => h (Except.ok.inj hc))
  | Except.error x, Except.error y =>
    if h : x = y then Decidable.isTrue (congrArg Except.error h)
    else Decidable.isFalse (fun hc => h (Except.error.inj hc))
  | Except.ok _, Except.error _ => Decidable.isFalse (fun hc => Except.noConfusion hc)
  | Except.error _, Except.ok _ => Decidable.isFalse (fun hc => Except.noConfusion hc)

/-- The OS error kinds (`std::io::ErrorKind`) distinguished by
`io_error_convert`; `other` stands for every unhandled kind, indexed by a tag
so that the fallback bucket covers an unbounded family. -/
inductive ErrorKind where
  | notFound
  | permissionDenied
  | alreadyExists
  | notADirectory
  | isADirectory
  | storageFull
  | fileTooLarge
  | other (tag : Nat)
deriving DecidableEq

/-- The image formats supported by the program (format table of the `image`
crate, as listed in the program's `--help` text and the spec). -/
inductive ImageFormat where
  | avif
  | jpeg
  | png
  | gif
  | webp
  | tiff
  | tga
  | dds
  | bmp
  | ico
  | hdr
  | openExr
  | pnm
  | farbfeld
  | qoi
  | pcx
deriving DecidableEq

/-- The closed error taxonomy `ImcoError` of `src/main.rs`. -/
inductive ImcoError where
  | FailedFileRead (reason path : String)
  | FailedFileWrite (reason path : String)
  | InvalidBatching
  | InvalidFormat (token : String)
  | NoDestFormat
  | Decoding (path hint : String)
  | Encoding (path hint : String)
  | Unsupported (path hint : String)
  | InternalConversionError (path : String)
  | ResourceLimitReached (path : String)
  | BatchPattern (err pat : String)
  | BatchReadEntry (err : String)
deriving DecidableEq

/-- The reason string `io_error_convert` assigns to each OS error kind
(src/main.rs lines 58-67). -/
def io_reason : ErrorKind → String
  | .notFound => "Not found"
  | .permissionDenied => "Permission denied"
  | .alreadyExists => "Already exists"
  | .notADirectory => "Is not a directory"
  | .isADirectory => "Is a directory"
  | .storageFull => "Storage is full"
  | .fileTooLarge => "File is too large"
  | .other _ => "Unknown (unhandled)"

/-- The error value `io_error_convert` produces for an OS error
(src/main.rs lines 68-72). -/
def io_error_to_imco (k : ErrorKind) (file_path : String) (is_read : Bool) : ImcoError :=
  if is_read then ImcoError.FailedFileRead (io_reason k) file_path
  else ImcoError.FailedFileWrite (io_reason k) file_path

/-- `io_error_convert` (src/main.rs lines 56-74). -/
def io_error_convert {α : Type} (res : Except ErrorKind α) (file_path : String)
    (is_read : Bool) : Except ImcoError α :=
  res.mapError (fun x => io_error_to_imco x file_path is_read)

/-- The fixed vocabulary of I/O failure reason strings. -/
def reasonVocab : List String :=
  ["Not found", "Permission denied", "Already exists", "Is not a directory",
   "Is a directory", "Storage is full", "File is too large", "Unknown (unhandled)"]

/-- The kinds of `image::error::UnsupportedErrorKind` distinguished by
`mk_unsupported_str`. -/
inductive UnsupportedKind where
  | color (c : String)
  | fmt (f : String)
  | genericFeature (gf : String)
  | otherKind
deriving DecidableEq

/-- `mk_unsupported_str` (src/main.rs lines 88-101). -/
def mk_unsupported_str : UnsupportedKind → String
  | .color c => "Unsupported color (" ++ c ++ ")"
  | .fmt f => "Unsupported or not allowed image format (" ++ f ++ ")"
  | .genericFeature gf => gf
  | .otherKind => "Other"

/-- The shapes of `image::ImageError` distinguished by `image_err_convert`. -/
inductive ImageErrorM where
  | Decoding (hint : String)
  | Encoding (hint : String)
  | Parameter
  | Limits
  | Unsupported (u : UnsupportedKind)
  | IoErr (k : ErrorKind)
deriving DecidableEq

/-- The error value `image_err_convert` produces (src/main.rs lines 103-114). -/
def image_err_to_imco (e : ImageErrorM) (img_path : String) : ImcoError :=
  match e with
  | .Decoding de => ImcoError.Decoding img_path de
  | .Encoding ee => ImcoError.Encoding img_path ee
  | .Parameter => ImcoError.InternalConversionError img_path
  | .Limits => ImcoError.ResourceLimitReached img_path
  | .Unsupported u => ImcoError.Unsupported img_path (mk_unsupported_str u)
  | .IoErr k => io_error_to_imco k img_path false

/-- `image_err_convert` (src/main.rs lines 103-114). -/
def image_err_convert {α : Type} (res : Except ImageErrorM α) (img_path : String) :
    Except ImcoError α :=
  res.mapError (fun e => image_err_to_imco e img_path)

/-- ASCII lowercasing of a string, character by character (the model of
`to_ascii_lowercase`; `Char.toLower` only affects the ASCII range). -/
def lowerStr (s : String) : String := String.mk (s.data.map Char.toLower)

/-- Whether the first character of the string is a dot. -/
def headIsDot (s : String) : Bool :=
  match s.data with
  | c :: _ => c = '.'
  | [] => false

/-- Drop a single leading dot, when present. -/
def stripDot (s : String) : String :=
  if headIsDot s then String.mk s.data.tail else s

/-- Lookup of a normalized format token in the fixed table
(the program's `--help` text, src/main.rs line 225, and spec table). -/
def format_from_token : String → Option ImageFormat
  | "avif" => some .avif
  | "jpg" | "jpeg" | "jfif" => some .jpeg
  | "png" | "apng" => some .png
  | "gif" => some .gif
  | "webp" => some .webp
  | "tif" | "tiff" => some .tiff
  | "tga" => some .tga
  | "dds" => some .dds
  | "bmp" => some .bmp
  | "ico" => some .ico
  | "hdr" => some .hdr
  | "exr" => some .openExr
  | "pbm" | "pam" | "ppm" | "pgm" => some .pnm
  | "ff" => some .farbfeld
  | "qoi" => some .qoi
  | "pcx" => some .pcx
  | _ => none

/-- The lowercase bare tokens of the supported-format table. -/
def supported_tokens : List String :=
  ["avif", "jpg", "jpeg", "jfif", "png", "apng", "gif", "webp", "tif", "tiff",
   "tga", "dds", "bmp", "ico", "hdr", "exr", "pbm", "pam", "ppm", "pgm",
   "ff", "qoi", "pcx"]

/-- Modelled from the spec: normalization of a user-supplied format token
before table lookup.  The resolver itself (`ImageFormat::from_extension`)
lives in the external `image` crate, not in this repository; spec section 4.2
states that case and leading-dot handling are normalized before lookup. -/
def normalize_token (t : String) : String := stripDot (lowerStr t)

/-- Modelled from the spec: `ImageFormat::from_extension` of the external
`image` crate — normalize the token, then look it up in the fixed table. -/
def from_extension (t : String) : Option ImageFormat :=
  format_from_token (normalize_token t)

/-- Modelled from the spec: `ImageFormat::extensions_str` of the external
`image` crate; the extension lists follow the spec's format table, with the
first listed extension the canonical one. -/
def extensions_str : ImageFormat → List String
  | .avif => ["avif"]
  | .jpeg => ["jpg", "jpeg", "jfif"]
  | .png => ["png", "apng"]
  | .gif => ["gif"]
  | .webp => ["webp"]
  | .tiff => ["tif", "tiff"]
  | .tga => ["tga"]
  | .dds => ["dds"]
  | .bmp => ["bmp"]
  | .ico => ["ico"]
  | .hdr => ["hdr"]
  | .openExr => ["exr"]
  | .pnm => ["pbm", "pam", "ppm", "pgm"]
  | .farbfeld => ["ff"]
  | .qoi => ["qoi"]
  | .pcx => ["pcx"]

/-- `fmt.extensions_str()[0]`: the canonical extension of a format. -/
def canonicalExt (f : ImageFormat) : String := (extensions_str f).getD 0 ""

/-- `mk_format` (src/main.rs lines 80-82). -/
def mk_format (f : String) : Except ImcoError ImageFormat :=
  match from_extension f with
  | some x => Except.ok x
  | none => Except.error (ImcoError.InvalidFormat f)

/-- Split a string at every '/' character, keeping empty pieces (the component
splitter underlying the Unix path model). -/
def splitSlashAux : List Char → List Char → List String
  | [], acc => [String.mk acc.reverse]
  | c :: rest, acc =>
    if c = '/' then String.mk acc.reverse :: splitSlashAux rest []
    else splitSlashAux rest (c :: acc)

/-- Split a string at '/' characters. -/
def splitSlash (s : String) : List String := splitSlashAux s.data []

/-- Model of `std::path::Path::file_name` on Unix: the last component after
discarding empty and `.` components, unless that component is `..`. -/
def file_name (p : String) : Option String :=
  match ((splitSlash p).filter (fun s => !(s == "" || s == "."))).getLast? with
  | some s => if s = ".." then none else some s
  | none => none

/-- Index of the last '.' among the characters, if any. -/
def lastDotIdx : List Char → Nat → Option Nat → Option Nat
  | [], _, acc => acc
  | c :: rest, i, acc => lastDotIdx rest (i + 1) (if c = '.' then some i else acc)

/-- Model of Rust's `split_file_at_dot`: the stem is the part before the final
'.', or the whole name when there is no '.' or the only '.' is leading. -/
def split_file_at_dot (file : String) : String × Option String :=
  if file = ".." then (file, none)
  else
    match lastDotIdx file.data 0 none with
    | none => (file, none)
    | some 0 => (file, none)
    | some i => (String.mk (file.data.take i), some (String.mk (file.data.drop (i + 1))))

/-- Model of `Path::file_stem`. -/
def file_stem (p : String) : Option String :=
  (file_name p).map (fun n => (split_file_at_dot n).1)

/-- Model of `Path::extension`. -/
def path_extension (p : String) : Option String :=
  (file_name p).bind (fun n => (split_file_at_dot n).2)

/-- `mk_format_fp` (src/main.rs lines 84-86): resolve a format from a path's
extension, failing with `InvalidFormat` on the full path string. -/
def mk_format_fp (f : String) : Except ImcoError ImageFormat :=
  match path_extension f with
  | none => Except.error (ImcoError.InvalidFormat f)
  | some e =>
    match from_extension e with
    | some x => Except.ok x
    | none => Except.error (ImcoError.InvalidFormat f)

/-- `mk_filename` (src/main.rs lines 116-121): filename stem + '.' + canonical
extension when a stem exists, otherwise the whole path string with the
canonical extension appended (no dot). -/
def mk_filename (p : String) (fmt : ImageFormat) : String :=
  match file_stem p with
  | some t => t ++ "." ++ canonicalExt fmt
  | none => p ++ canonicalExt fmt

/-- Whether the first character of the string is '/'. -/
def headIsSlash (s : String) : Bool :=
  match s.data with
  | c :: _ => c = '/'
  | [] => false

/-- Whether the last character of the string is '/'. -/
def lastIsSlash (s : String) : Bool :=
  match s.data.getLast? with
  | some c => c = '/'
  | none => false

/-- Model of `Path::new(base).join(child)` on Unix: an absolute child replaces
the base; otherwise a separator is inserted unless the base is empty or
already ends in one. -/
def path_join (base child : String) : String :=
  if headIsSlash child then child
  else if base = "" then child
  else if lastIsSlash base then base ++ child
  else base ++ "/" ++ child

/-- `join_path` (src/main.rs lines 123-125). -/
def join_path (p : String) (fmt : ImageFormat) (stem : String) : String :=
  path_join stem (mk_filename p fmt)

/-- Observable side effects of one `individual_process` run: opening/reading
the input, decoding it, and the two save calls of the `image` crate. -/
inductive Event where
  | eRead (path : String)
  | eDecode (path : String)
  | eSaveWithFormat (out : String) (fmt : ImageFormat)
  | eSavePlain (out : String)
deriving DecidableEq

/-- Oracle standing for the filesystem and the external `image` codec:
`openRes` is the outcome of `ImageReader::open` (`none` = success),
`readerFmt` the format the reader guesses, `decodeRes` the outcome of
`decode` given the path and the forced input format, and the two save fields
the outcomes of `save_with_format` and `save`. -/
structure Oracle where
  openRes : String → Option ErrorKind
  readerFmt : String → Option ImageFormat
  decodeRes : String → Option ImageFormat → Option ImageErrorM
  saveWithFmtRes : String → ImageFormat → Option ImageErrorM
  saveRes : String → Option ImageErrorM

/-- Outcome of running a fallible Rust function that may also panic
(`unwrap` on `None`). -/
inductive RunResult (α : Type) where
  | panic
  | err (e : ImcoError)
  | ok (a : α)
deriving DecidableEq

/-- `individual_process` (src/main.rs lines 127-149), with the filesystem and
codec behaviour supplied by the oracle and the performed I/O actions returned
as an event trace.  The `panic` results model the two `output.unwrap()` calls
on line 139 and line 144. -/
def individual_process (O : Oracle) (path : String) (output : Option String)
    (i_fmt o_fmt : Option ImageFormat) (batch : Bool) :
    RunResult (String × Option ImageFormat × ImageFormat) × List Event :=
  if output.isNone && o_fmt.isNone then (.err .NoDestFormat, [])
  else
    match O.openRes path with
    | some k => (.err (io_error_to_imco k path true), [.eRead path])
    | none =>
      let org_fmt := match i_fmt with
        | some f => some f
        | none => O.readerFmt path
      match O.decodeRes path i_fmt with
      | some e => (.err (image_err_to_imco e path), [.eRead path, .eDecode path])
      | none =>
        match o_fmt with
        | some fmt =>
          match (if batch then output.map (fun o => join_path path fmt o)
                 else some (match output with
                            | some o => o
                            | none => mk_filename path fmt)) with
          | none => (.panic, [.eRead path, .eDecode path])
          | some outp =>
            match O.saveWithFmtRes outp fmt with
            | some e =>
              (.err (image_err_to_imco e path),
               [.eRead path, .eDecode path, .eSaveWithFormat outp fmt])
            | none =>
              (.ok (outp, org_fmt, fmt),
               [.eRead path, .eDecode path, .eSaveWithFormat outp fmt])
        | none =>
          if batch then (.err .InvalidBatching, [.eRead path, .eDecode path])
          else
            match output with
            | none => (.panic, [.eRead path, .eDecode path])
            | some outp =>
              match mk_format_fp outp with
              | Except.error e => (.err e, [.eRead path, .eDecode path])
              | Except.ok aif =>
                match O.saveRes outp with
                | some e =>
                  (.err (image_err_to_imco e path),
                   [.eRead path, .eDecode path, .eSavePlain outp])
                | none =>
                  (.ok (outp, org_fmt, aif),
                   [.eRead path, .eDecode path, .eSavePlain outp])

/-- The success line `process` prints for one couple (src/main.rs lines
157-161). -/
def success_line (input : String) (res : String × Option ImageFormat × ImageFormat) :
    String :=
  match res.2.1 with
  | some f =>
    input ++ " (" ++ canonicalExt f ++ ") -> " ++ res.1 ++ " (" ++ canonicalExt res.2.2 ++ ")"
  | none => input ++ " -> " ++ res.1 ++ " (" ++ canonicalExt res.2.2 ++ ")"

/-- The loop of `process` (src/main.rs lines 155-162): run each couple in
order, print a success line after each success, stop at the first failure.
Returns the overall outcome, the printed success lines in order, and the list
of inputs for which `individual_process` was invoked. -/
def process_loop (O : Oracle) (couples : List (String × Option String))
    (i_fmt o_fmt : Option ImageFormat) (batch : Bool) :
    RunResult Unit × List String × List String :=
  match couples with
  | [] => (.ok (), [], [])
  | c :: rest =>
    match (individual_process O c.1 c.2 i_fmt o_fmt batch).1 with
    | .panic => (.panic, [], [c.1])
    | .err e => (.err e, [], [c.1])
    | .ok r =>
      let t := process_loop O rest i_fmt o_fmt batch
      (t.1, success_line c.1 r :: t.2.1, c.1 :: t.2.2)

/-- The optional-format parsing of `process` (src/main.rs lines 152-153):
`Some(mk_format(s)?)` when a token is given. -/
def opt_format : Option String → Except ImcoError (Option ImageFormat)
  | some s => (mk_format s).map some
  | none => Except.ok none

/-- `process` (src/main.rs lines 151-165). -/
def process (O : Oracle) (couples : List (String × Option String))
    (i_fmt_s o_fmt_s : Option String) (batch : Bool) :
    RunResult Unit × List String × List String :=
  match opt_format i_fmt_s with
  | Except.error e => (.err e, [], [])
  | Except.ok i_fmt =>
    match opt_format o_fmt_s with
    | Except.error e => (.err e, [], [])
    | Except.ok o_fmt => process_loop O couples i_fmt o_fmt batch

/-- The printed success line of a couple under a given configuration (empty
for a couple that does not succeed). -/
def lineOf (O : Oracle) (i_fmt o_fmt : Option ImageFormat) (batch : Bool)
    (u : String × Option String) : String :=
  match (individual_process O u.1 u.2 i_fmt o_fmt batch).1 with
  | .ok r => success_line u.1 r
  | _ => ""

/-- Result of evaluating one glob pattern: either the pattern is malformed, or
it yields a list of entries each of which is a path or a read error. -/
inductive GlobResult where
  | patErr (msg : String)
  | entries (es : List (Except String String))
deriving DecidableEq

/-- The inner entry loop of `expand_patterns_to_files` (src/main.rs lines
172-177): push each matched path, abort on the first unreadable entry. -/
def collect_entries (files : List String) :
    List (Except String String) → Except ImcoError (List String)
  | [] => Except.ok files
  | Except.ok path :: rest => collect_entries (files ++ [path]) rest
  | Except.error e :: _ => Except.error (ImcoError.BatchReadEntry e)

/-- The pattern loop of `expand_patterns_to_files` (src/main.rs lines
169-181). -/
def expand_go (G : String → GlobResult) (files : List String) :
    List String → Except ImcoError (List String)
  | [] => Except.ok files
  | pat :: rest =>
    match G pat with
    | .patErr e => Except.error (ImcoError.BatchPattern e pat)
    | .entries es =>
      match collect_entries files es with
      | Except.error e => Except.error e
      | Except.ok files2 => expand_go G files2 rest

/-- `expand_patterns_to_files` (src/main.rs lines 167-183), with glob
evaluation supplied by the oracle `G`. -/
def expand_patterns_to_files (G : String → GlobResult) (patterns : List String) :
    Except ImcoError (List String) :=
  expand_go G [] patterns

/-- The pairing loop of `parse_and_execute` (src/main.rs lines 201-211):
every input gets a partner — `none` when there are no outputs, the
positional output while outputs last, the last output afterwards. -/
def mk_couples (input_files output_files : List String) :
    List (String × Option String) :=
  input_files.enum.map (fun x =>
    (x.2,
      if output_files.isEmpty then none
      else if output_files.length ≤ x.1 then some (output_files.getLastD "")
      else some (output_files.getD x.1 "")))

/-- Concrete oracle for the worked examples: every file opens, decodes and
saves fine, except that `bad.png` fails to open with `NotFound`. -/
def egOracle : Oracle where
  openRes := fun p => if p = "bad.png" then some ErrorKind.notFound else none
  readerFmt := fun _ => some ImageFormat.png
  decodeRes := fun _ _ => none
  saveWithFmtRes := fun _ _ => none
  saveRes := fun _ => none

/-- Concrete oracle on which every file open fails with `NotFound`. -/
def failOracle : Oracle where
  openRes := fun _ => some ErrorKind.notFound
  readerFmt := fun _ => none
  decodeRes := fun _ _ => none
  saveWithFmtRes := fun _ _ => none
  saveRes := fun _ => none

/-- Concrete glob oracle for the worked examples. -/
def egGlob : String → GlobResult := fun p =>
  if p = "bad[" then GlobResult.patErr "Pattern syntax error"
  else if p = "imgs/*.png" then
    GlobResult.entries [Except.ok "imgs/a.png", Except.ok "imgs/b.png"]
  else if p = "locked/*" then
    GlobResult.entries [Except.ok "locked/a.png", Except.error "permission denied"]
  else GlobResult.entries []

end Imco
namespace Imco

/-! ## Helper lemmas -/

theorem toLower_ne_dot (c : Char) (h : ¬ c = '.') : ¬ Char.toLower c = '.' := by
  intro hc
  simp only [Char.toLower] at hc
  by_cases hr : c.toNat ≥ 65 ∧ c.toNat ≤ 90
  · rw [if_pos hr] at hc
    have hv : (c.toNat + 32).isValidChar := Or.inl (by omega)
    have ht : (Char.ofNat (c.toNat + 32)).toNat = c.toNat + 32 := by
      rw [Char.ofNat, dif_pos hv]
      rfl
    rw [hc] at ht
    have h46 : ('.').toNat = 46 := rfl
    omega
  · rw [if_neg hr] at hc
    exact h hc

theorem headIsDot_lowerStr (t : String) : headIsDot (lowerStr t) = headIsDot t := by
  rcases t with ⟨l⟩
  cases l with
  | nil => rfl
  | cons c cs =>
    show headIsDot (String.mk ((c :: cs).map Char.toLower)) = _
    simp only [List.map_cons, headIsDot]
    by_cases h : c = '.'
    · subst h
      rfl
    · simp [h, toLower_ne_dot c h]

theorem normalize_dot_prepend (t : String) (h : headIsDot t = false) :
    normalize_token ("." ++ t) = normalize_token t := by
  have hdata : ("." ++ t).data = '.' :: t.data := by
    rw [String.data_append]
    rfl
  have hlow : lowerStr ("." ++ t) = String.mk ('.' :: t.data.map Char.toLower) := by
    simp [lowerStr, hdata]
  have hleft : normalize_token ("." ++ t) = lowerStr t := by
    rw [normalize_token, hlow, stripDot]
    have : headIsDot (String.mk ('.' :: t.data.map Char.toLower)) = true := rfl
    rw [if_pos this]
    rfl
  have hright : normalize_token t = lowerStr t := by
    rw [normalize_token, stripDot]
    rw [headIsDot_lowerStr, h]
    simp
  rw [hleft, hright]

theorem collect_entries_all_ok (es : List (Except String String))
    (h : ∀ x ∈ es, ∃ s, x = Except.ok s) :
    ∀ files, ∃ fs, collect_entries files es = Except.ok fs := by
  induction es with
  | nil => exact fun files => ⟨files, rfl⟩
  | cons x rest ih =>
    intro files
    obtain ⟨s, hs⟩ := h x (List.mem_cons_self x rest)
    subst hs
    exact ih (fun y hy => h y (List.mem_cons_of_mem _ hy)) (files ++ [s])

theorem collect_entries_err (msg : String) (es2 : List (Except String String)) :
    ∀ es1, (∀ x ∈ es1, ∃ s, x = Except.ok s) → ∀ files,
    collect_entries files (es1 ++ Except.error msg :: es2) =
      Except.error (ImcoError.BatchReadEntry msg) := by
  intro es1
  induction es1 with
  | nil => intro _ files; rfl
  | cons x rest ih =>
    intro h files
    obtain ⟨s, hs⟩ := h x (List.mem_cons_self x rest)
    subst hs
    exact ih (fun y hy => h y (List.mem_cons_of_mem _ hy)) (files ++ [s])

theorem expand_go_ok_prefix (G : String → GlobResult) (pre : List String)
    (h : ∀ p ∈ pre, ∃ es, G p = GlobResult.entries es ∧ ∀ x ∈ es, ∃ s, x = Except.ok s) :
    ∀ files l, ∃ files2, expand_go G files (pre ++ l) = expand_go G files2 l := by
  induction pre with
  | nil => exact fun files l => ⟨files, rfl⟩
  | cons p rest ih =>
    intro files l
    obtain ⟨es, hG, hok⟩ := h p (List.mem_cons_self p rest)
    obtain ⟨fs, hfs⟩ := collect_entries_all_ok es hok files
    have : expand_go G files ((p :: rest) ++ l) = expand_go G fs (rest ++ l) := by
      show expand_go G files (p :: (rest ++ l)) = _
      rw [expand_go]
      simp only [hG, hfs]
    rw [this]
    exact ih (fun y hy => h y (List.mem_cons_of_mem _ hy)) fs l

theorem process_loop_fail_fast (O : Oracle) (i_fmt o_fmt : Option ImageFormat)
    (batch : Bool) (cpl : String × Option String) (post : List (String × Option String))
    (e : ImcoError) (hc : (individual_process O cpl.1 cpl.2 i_fmt o_fmt batch).1 = .err e) :
    ∀ pre, (∀ u ∈ pre, ∃ r, (individual_process O u.1 u.2 i_fmt o_fmt batch).1 = .ok r) →
    process_loop O (pre ++ cpl :: post) i_fmt o_fmt batch =
      (.err e, pre.map (lineOf O i_fmt o_fmt batch), pre.map Prod.fst ++ [cpl.1]) := by
  intro pre
  induction pre with
  | nil =>
    intro _
    show process_loop O (cpl :: post) i_fmt o_fmt batch = _
    rw [process_loop, hc]
    rfl
  | cons u rest ih =>
    intro h
    obtain ⟨r, hr⟩ := h u (List.mem_cons_self u rest)
    have hrec := ih (fun y hy => h y (List.mem_cons_of_mem _ hy))
    show process_loop O (u :: (rest ++ cpl :: post)) i_fmt o_fmt batch = _
    rw [process_loop, hr]
    simp only [hrec, List.map_cons, List.cons_append]
    have hline : lineOf O i_fmt o_fmt batch u = success_line u.1 r := by
      rw [lineOf, hr]
    rw [hline]

/-! ## Claim theorems -/

/-- Claim C1: the pairing produced by `parse_and_execute` is total and
positional with last-element fallback — for a non-empty input list and any
output list it has exactly one entry per input, in input order, and the entry
at index `i` carries `none` when there are no outputs, the output at `i`
while outputs last, and the last output afterwards. -/
theorem pairing_total_positional_fallback :
    ∀ (inputs outs : List String), inputs ≠ [] →
    (mk_couples inputs outs).length = inputs.length ∧
    (mk_couples inputs outs).map Prod.fst = inputs ∧
    ∀ i, i < inputs.length →
      (mk_couples inputs outs)[i]? =
        some (inputs.getD i "",
          if outs = [] then none
          else if i < outs.length then some (outs.getD i "")
          else outs.getLast?) := by
  intro inputs outs _
  refine ⟨?_, ?_, ?_⟩
  · rw [mk_couples, List.length_map, List.enum_length]
  · rw [mk_couples, List.map_map]
    have : (Prod.fst ∘ fun x : Nat × String =>
        (x.2, if outs.isEmpty then none
              else if outs.length ≤ x.1 then some (outs.getLastD "")
              else some (outs.getD x.1 ""))) = Prod.snd := by
      funext x
      rfl
    rw [this, List.enum_map_snd]
  · intro i hi
    rw [mk_couples, List.getElem?_map, List.getElem?_enum,
      List.getElem?_eq_getElem hi]
    simp only [Option.map_some']
    congr 1
    refine Prod.ext ?_ ?_
    · show inputs[i] = inputs.getD i ""
      rw [List.getD_eq_getElem inputs "" hi]
    · show (if outs.isEmpty then none
            else if outs.length ≤ i then some (outs.getLastD "")
            else some (outs.getD i "")) =
        (if outs = [] then none
         else if i < outs.length then some (outs.getD i "")
         else outs.getLast?)
      by_cases hout : outs = []
      · subst hout
        rfl
      · rw [if_neg hout, if_neg (by simp [List.isEmpty_iff, hout])]
        by_cases hlt : i < outs.length
        · rw [if_pos hlt, if_neg (by omega)]
        · rw [if_neg hlt, if_pos (by omega)]
          rw [List.getLastD_eq_getLast?, List.getLast?_eq_getLast outs hout]
          rfl

theorem pairing_total_positional_fallback_witness :
    (mk_couples ["a", "b", "c"] ["x", "y"])[2]? = some ("c", some "y") := by
  have h := (pairing_total_positional_fallback ["a", "b", "c"] ["x", "y"]
    (by decide)).2.2 2 (by decide)
  simpa using h

/-- Claim C2 (amended): with batch mode enabled and no output-format override,
processing an explicit output path never succeeds and never attempts a save;
it fails with `InvalidBatching` whenever the input read and decode succeed,
while a read or decode failure surfaces as that earlier error instead. -/
theorem batch_no_format_rejection_amended :
    ∀ (O : Oracle) (path out : String) (i_fmt : Option ImageFormat),
    (O.openRes path = none → O.decodeRes path i_fmt = none →
      (individual_process O path (some out) i_fmt none true).1 = .err .InvalidBatching) ∧
    (∀ v, (individual_process O path (some out) i_fmt none true).1 ≠ .ok v) ∧
    (∀ o2 fmt2,
      Event.eSaveWithFormat o2 fmt2 ∉ (individual_process O path (some out) i_fmt none true).2) ∧
    (∀ o2, Event.eSavePlain o2 ∉ (individual_process O path (some out) i_fmt none true).2) := by
  intro O path out i_fmt
  rcases hOpen : O.openRes path with _ | k <;>
    rcases hDec : O.decodeRes path i_fmt with _ | e <;>
      simp_all [individual_process]

/-- Claim C2 counterexample: with batch mode enabled, no output-format
override and an explicit output path, a missing input file makes
`individual_process` fail with `FailedFileRead`, not `InvalidBatching`. -/
theorem batch_no_format_counterexample :
    (individual_process failOracle "in.png" (some "out.png") none none true).1
        = .err (.FailedFileRead "Not found" "in.png") ∧
    (individual_process failOracle "in.png" (some "out.png") none none true).1
        ≠ .err .InvalidBatching := by
  decide

theorem batch_no_format_rejection_amended_witness :
    (individual_process egOracle "in.png" (some "out.png") none none true).1
      = .err .InvalidBatching :=
  (batch_no_format_rejection_amended egOracle "in.png" "out.png" none).1
    (by decide) (by decide)

/-- Claim C3: output-name derivation is deterministic — when the input path
has a filename stem, `mk_filename` returns stem + '.' + canonical extension,
and `join_path` places that name inside the destination directory. -/
theorem derived_name_deterministic :
    ∀ (p dir s : String) (fmt : ImageFormat), file_stem p = some s →
    mk_filename p fmt = s ++ "." ++ canonicalExt fmt ∧
    (headIsSlash (mk_filename p fmt) = false → dir ≠ "" → lastIsSlash dir = false →
      join_path p fmt dir = dir ++ "/" ++ (s ++ "." ++ canonicalExt fmt)) := by
  intro p dir s fmt h
  have h1 : mk_filename p fmt = s ++ "." ++ canonicalExt fmt := by
    rw [mk_filename, h]
  refine ⟨h1, fun hs hd hl => ?_⟩
  rw [join_path, path_join, if_neg (by simp [hs]), if_neg hd,
    if_neg (by simp [hl]), h1]

theorem derived_name_deterministic_witness :
    mk_filename "photo.jpg" ImageFormat.png = "photo.png" ∧
    join_path "dir/photo.jpg" ImageFormat.webp "out" = "out/photo.webp" := by
  constructor
  · have h := (derived_name_deterministic "photo.jpg" "out" "photo"
      ImageFormat.png (by decide)).1
    simpa using h
  · have h := (derived_name_deterministic "dir/photo.jpg" "out" "photo"
      ImageFormat.webp (by decide)).2 (by decide) (by decide) (by decide)
    simpa using h

/-- Claim C4: format-token resolution is normalization-insensitive —
prepending a dot to a dotless token does not change the result, resolution
only depends on the ASCII-lowered token, every table token resolves, and an
unsupported token fails with `InvalidFormat` carrying exactly that token. -/
theorem format_resolution_normalized :
    (∀ t : String, headIsDot t = false →
      from_extension ("." ++ t) = from_extension t) ∧
    (∀ t u : String, lowerStr t = lowerStr u → from_extension t = from_extension u) ∧
    (supported_tokens.all (fun t => (from_extension t).isSome) = true) ∧
    (∀ t : String, from_extension t = none →
      mk_format t = Except.error (ImcoError.InvalidFormat t)) ∧
    from_extension "zzz" = none := by
  refine ⟨?_, ?_, by decide, ?_, by decide⟩
  · intro t h
    rw [from_extension, from_extension, normalize_dot_prepend t h]
  · intro t u h
    rw [from_extension, from_extension, normalize_token, normalize_token, h]
  · intro t h
    rw [mk_format, h]

theorem format_resolution_normalized_witness :
    from_extension ("." ++ "png") = from_extension "png" ∧
    from_extension "PNG" = from_extension "png" ∧
    mk_format "zzz" = Except.error (ImcoError.InvalidFormat "zzz") :=
  ⟨format_resolution_normalized.1 "png" (by decide),
   format_resolution_normalized.2.1 "PNG" "png" (by decide),
   format_resolution_normalized.2.2.2.1 "zzz" (by decide)⟩

/-- Claim C5: `process` is fail-fast — for any sequence of couples that is a
prefix of successes followed by a failing couple, it prints exactly one
success line per preceding success, in input order, surfaces the failing
couple's error, and never invokes `individual_process` on any later couple. -/
theorem process_fail_fast :
    ∀ (O : Oracle) (pre : List (String × Option String)) (cpl : String × Option String)
      (post : List (String × Option String)) (i_fmt_s o_fmt_s : Option String)
      (i_fmt o_fmt : Option ImageFormat) (batch : Bool) (e : ImcoError),
    opt_format i_fmt_s = Except.ok i_fmt →
    opt_format o_fmt_s = Except.ok o_fmt →
    (∀ u ∈ pre, ∃ r, (individual_process O u.1 u.2 i_fmt o_fmt batch).1 = .ok r) →
    (individual_process O cpl.1 cpl.2 i_fmt o_fmt batch).1 = .err e →
    process O (pre ++ cpl :: post) i_fmt_s o_fmt_s batch =
      (.err e, pre.map (lineOf O i_fmt o_fmt batch), pre.map Prod.fst ++ [cpl.1]) := by
  intro O pre cpl post i_fmt_s o_fmt_s i_fmt o_fmt batch e h1 h2 hpre hc
  rw [process, h1, h2]
  exact process_loop_fail_fast O i_fmt o_fmt batch cpl post e hc pre hpre

theorem process_fail_fast_witness :
    process egOracle [("good.png", none), ("bad.png", none), ("good2.png", none)]
      none (some "png") false =
      (.err (.FailedFileRead "Not found" "bad.png"),
       ["good.png (png) -> good.png (png)"], ["good.png", "bad.png"]) := by
  have h := process_fail_fast egOracle [("good.png", none)] ("bad.png", none)
    [("good2.png", none)] none (some "png") none (some ImageFormat.png) false
    (.FailedFileRead "Not found" "bad.png") (by decide) (by decide)
    (by
      intro u hu
      simp only [List.mem_singleton] at hu
      subst hu
      exact ⟨("good.png", some ImageFormat.png, ImageFormat.png), by decide⟩)
    (by decide)
  simpa using h

/-- Claim C6: a work unit with no output and no output-format override always
fails with `NoDestFormat`, for every oracle, with an empty event trace — so
no file I/O is performed at all. -/
theorem no_dest_format_rejection :
    ∀ (O : Oracle) (path : String) (i_fmt : Option ImageFormat) (batch : Bool),
    individual_process O path none i_fmt none batch = (.err .NoDestFormat, []) := by
  intro O path i_fmt batch
  rfl

/-- Claim C7: batch pattern expansion is all-or-nothing — after any prefix of
clean patterns, a malformed pattern aborts the whole expansion with
`BatchPattern(reason, pattern)` and an unreadable matched entry aborts it with
`BatchReadEntry(reason)`, independently of the remaining patterns and entries,
and no path list is returned. -/
theorem expand_fail_fast :
    ∀ (G : String → GlobResult) (pre : List String) (pat : String) (post : List String),
    (∀ p ∈ pre, ∃ es, G p = GlobResult.entries es ∧ ∀ x ∈ es, ∃ s, x = Except.ok s) →
    (∀ msg, G pat = GlobResult.patErr msg →
      expand_patterns_to_files G (pre ++ pat :: post) =
        Except.error (ImcoError.BatchPattern msg pat)) ∧
    (∀ es1 msg es2, G pat = GlobResult.entries (es1 ++ Except.error msg :: es2) →
      (∀ x ∈ es1, ∃ s, x = Except.ok s) →
      expand_patterns_to_files G (pre ++ pat :: post) =
        Except.error (ImcoError.BatchReadEntry msg)) := by
  intro G pre pat post hpre
  obtain ⟨files2, hfiles2⟩ := expand_go_ok_prefix G pre hpre [] (pat :: post)
  constructor
  · intro msg hG
    rw [expand_patterns_to_files, hfiles2, expand_go, hG]
  · intro es1 msg es2 hG hok
    rw [expand_patterns_to_files, hfiles2, expand_go]
    simp only [hG, collect_entries_err msg es2 es1 hok files2]

theorem expand_fail_fast_witness :
    expand_patterns_to_files egGlob ["imgs/*.png", "bad[", "x"] =
      Except.error (ImcoError.BatchPattern "Pattern syntax error" "bad[") ∧
    expand_patterns_to_files egGlob ["imgs/*.png", "locked/*", "x"] =
      Except.error (ImcoError.BatchReadEntry "permission denied") := by
  have hpre : ∀ p ∈ ["imgs/*.png"], ∃ es, egGlob p = GlobResult.entries es ∧
      ∀ x ∈ es, ∃ s, x = Except.ok s := by
    intro p hp
    simp only [List.mem_singleton] at hp
    subst hp
    refine ⟨[Except.ok "imgs/a.png", Except.ok "imgs/b.png"], by decide, ?_⟩
    intro x hx
    rcases List.mem_cons.mp hx with h | hx2
    · exact ⟨"imgs/a.png", h⟩
    · rcases List.mem_cons.mp hx2 with h | h
      · exact ⟨"imgs/b.png", h⟩
      · exact absurd h (List.not_mem_nil x)
  constructor
  · exact (expand_fail_fast egGlob ["imgs/*.png"] "bad[" ["x"] hpre).1
      "Pattern syntax error" (by decide)
  · refine (expand_fail_fast egGlob ["imgs/*.png"] "locked/*" ["x"] hpre).2
      [Except.ok "locked/a.png"] "permission denied" [] (by decide) ?_
    intro x hx
    rcases List.mem_cons.mp hx with h | h
    · exact ⟨"locked/a.png", h⟩
    · exact absurd h (List.not_mem_nil x)

/-- Claim C8: the I/O error classifier is total — every OS error kind maps to
a `FailedFileRead` (reads) or `FailedFileWrite` (writes) whose reason string
belongs to the fixed eight-value vocabulary, with every unhandled kind
falling into the `Unknown (unhandled)` bucket. -/
theorem io_classifier_total :
    (∀ (k : ErrorKind) (p : String) (is_read : Bool),
      ∃ r, r ∈ reasonVocab ∧
        io_error_convert (Except.error k : Except ErrorKind Unit) p is_read =
          Except.error
            (if is_read then ImcoError.FailedFileRead r p
             else ImcoError.FailedFileWrite r p)) ∧
    reasonVocab.length = 8 ∧ reasonVocab.Nodup ∧
    (∀ tag : Nat, io_reason (ErrorKind.other tag) = "Unknown (unhandled)") := by
  refine ⟨?_, by decide, by decide, fun _ => rfl⟩
  intro k p is_read
  refine ⟨io_reason k, ?_, rfl⟩
  cases k <;> simp [io_reason, reasonVocab]

/-- Claim C9: when the input path has no extractable filename stem, the
derived output name is the whole original path string with the canonical
extension of the target format appended. -/
theorem mk_filename_stemless :
    ∀ (p : String) (fmt : ImageFormat), file_stem p = none →
    mk_filename p fmt = p ++ canonicalExt fmt := by
  intro p fmt h
  rw [mk_filename, h]

theorem mk_filename_stemless_witness :
    mk_filename ".." ImageFormat.png = ".." ++ canonicalExt ImageFormat.png :=
  mk_filename_stemless ".." ImageFormat.png (by decide)

/-- Claim C10: with batch mode on and an output-format override present,
`individual_process` requires its output argument to be present — when it is
absent and the input reads and decodes, the run panics on `output.unwrap()`
instead of returning an `ImcoError`, and under the precondition that batch
mode implies an output is present no input can make the function panic. -/
theorem individual_process_panic_precondition :
    (∀ (O : Oracle) (path : String) (i_fmt : Option ImageFormat) (fmt : ImageFormat),
      O.openRes path = none → O.decodeRes path i_fmt = none →
      (individual_process O path none i_fmt (some fmt) true).1 = .panic) ∧
    (∀ (O : Oracle) (path : String) (output : Option String)
       (i_fmt o_fmt : Option ImageFormat) (batch : Bool),
      (batch = true → output.isSome = true) →
      (individual_process O path output i_fmt o_fmt batch).1 ≠ .panic) := by
  constructor
  · intro O path i_fmt fmt hOpen hDec
    simp [individual_process, hOpen, hDec]
  · intro O path output i_fmt o_fmt batch hpre
    rcases output with _ | out
    · have hb : batch = false := by
        cases batch
        · rfl
        · exact absurd (hpre rfl) (by simp)
      subst hb
      rcases o_fmt with _ | fmt
      · simp [individual_process]
      · rcases hOpen : O.openRes path with _ | k <;>
          rcases hDec : O.decodeRes path i_fmt with _ | e <;>
            rcases hSave : O.saveWithFmtRes (mk_filename path fmt) fmt with _ | e2 <;>
              simp [individual_process, hOpen, hDec, hSave]
    · rcases o_fmt with _ | fmt
      · rcases hOpen : O.openRes path with _ | k <;>
          rcases hDec : O.decodeRes path i_fmt with _ | e <;>
            rcases hFmt : mk_format_fp out with e2 | aif <;>
              rcases hSave : O.saveRes out with _ | e3 <;>
                cases batch <;>
                  simp [individual_process, hOpen, hDec, hFmt, hSave]
      · rcases hOpen : O.openRes path with _ | k <;>
          rcases hDec : O.decodeRes path i_fmt with _ | e <;>
            cases batch <;>
              rcases hSaveA : O.saveWithFmtRes out fmt with _ | e2 <;>
                rcases hSaveB : O.saveWithFmtRes (join_path path fmt out) fmt with _ | e3 <;>
                  simp [individual_process, hOpen, hDec, hSaveA, hSaveB]

theorem individual_process_panic_precondition_witness :
    (individual_process egOracle "in.png" none none (some ImageFormat.png) true).1
        = .panic ∧
    (individual_process egOracle "in.png" (some "out") none (some ImageFormat.png) true).1
        ≠ .panic :=
  ⟨individual_process_panic_precondition.1 egOracle "in.png" none ImageFormat.png
      (by decide) (by decide),
   individual_process_panic_precondition.2 egOracle "in.png" (some "out") none
      (some ImageFormat.png) true (fun _ => rfl)⟩

end Imco
